import Mathlib

/-!
Verification development for the plan-pipeline worker of the
cf-todoist-daily-agent repository.  The TypeScript route module is embedded
shallowly: every pure helper becomes a Lean function over lists and strings,
external calls (Workers AI generation, MCP tool invocations) become explicit
outcome parameters, and the streaming handler becomes a function from those
outcomes to the list of emitted events.

JavaScript specifics modelled explicitly:
* string truthiness (the empty string is falsy),
* the whitespace class used by trim and by the regex class backslash-s,
  restricted to its ASCII part (space, tab, LF, VT, FF, CR),
* toLowerCase restricted to its ASCII action (the source only lowercases
  prompts, label names and tool cues, all compared against ASCII patterns).
-/

/-- ASCII part of the JavaScript whitespace class used by trim and the
regex whitespace escape: space and the control characters 9 to 13. -/
def isJsWs (c : Char) : Bool :=
  c.toNat = 32 || (9 ≤ c.toNat && c.toNat ≤ 13)

/-- ASCII action of JavaScript toLowerCase, applied characterwise. -/
def jsLowerChar (c : Char) : Char :=
  if 65 ≤ c.toNat && c.toNat ≤ 90 then Char.ofNat (c.toNat + 32) else c

/-- Characterwise lowercasing of a string, modelling toLowerCase. -/
def strLower (s : String) : String :=
  String.mk (s.data.map jsLowerChar)

/-- Both-ends whitespace trimming on a character list. -/
def trimList (cs : List Char) : List Char :=
  ((cs.dropWhile isJsWs).reverse.dropWhile isJsWs).reverse

/-- Models String.prototype.trim (ASCII whitespace part). -/
def jsTrim (s : String) : String :=
  String.mk (trimList s.data)

/-- JavaScript truthiness of an optional string: undefined and the empty
string are falsy, every other string is truthy. -/
def truthy (o : Option String) : Bool :=
  o.getD "" ≠ ""

theorem toNat_ofNat_valid (n : Nat) (h : n.isValidChar) :
    (Char.ofNat n).toNat = n := by
  simp only [Char.ofNat, dif_pos h, Char.ofNatAux, Char.toNat]
  simp [UInt32.toNat]

theorem isJsWs_jsLowerChar (c : Char) : isJsWs (jsLowerChar c) = isJsWs c := by
  unfold jsLowerChar
  by_cases h : 65 ≤ c.toNat ∧ c.toNat ≤ 90
  · have hv : (c.toNat + 32).isValidChar := Or.inl (by omega)
    have ht := toNat_ofNat_valid (c.toNat + 32) hv
    have hc : (65 ≤ c.toNat && c.toNat ≤ 90) = true := by
      simp only [Bool.and_eq_true, decide_eq_true_eq]
      exact ⟨h.1, h.2⟩
    rw [if_pos hc]
    have e1 : isJsWs (Char.ofNat (c.toNat + 32)) = false := by
      simp only [isJsWs, ht, Bool.or_eq_false_iff, Bool.and_eq_false_iff,
        decide_eq_false_iff_not]
      omega
    have e2 : isJsWs c = false := by
      simp only [isJsWs, Bool.or_eq_false_iff, Bool.and_eq_false_iff,
        decide_eq_false_iff_not]
      omega
    rw [e1, e2]
  · have hc : (65 ≤ c.toNat && c.toNat ≤ 90) = false := by
      simp only [Bool.and_eq_false_iff, decide_eq_false_iff_not]
      omega
    rw [if_neg (by simp [hc])]

/-!
## Priority cue detection

Embeds detectPriorityFromPrompt and mapPriorityCueToApi from the route
module.  The three regular expressions are fixed, so each one is embedded
as a direct leftmost search over the lowercased character list:
* pattern one: start of string or a character outside lowercase a-z and 0-9,
  then the letter p, optional whitespace, one captured digit 0-4;
* patterns two and three: the literal word (priority, or the CJK cue),
  optional whitespace, one captured digit 0-4.
-/

/-- The regex digit class 0-4, written as the explicit character set. -/
def isDigit04 (c : Char) : Bool :=
  c = '0' || c = '1' || c = '2' || c = '3' || c = '4'

/-- A character that may not precede the letter p in pattern one: the regex
negates the class of lowercase letters and digits. -/
def isLowerAlnum (c : Char) : Bool :=
  ('a' ≤ c && c ≤ 'z') || ('0' ≤ c && c ≤ '9')

/-- Matches the tail of pattern one at the current position: the letter p,
then optional whitespace, then a captured digit 0-4. -/
def matchPTail : List Char → Option Char
  | 'p' :: rest =>
    match rest.dropWhile isJsWs with
    | d :: _ => if isDigit04 d then some d else none
    | [] => none
  | _ => none

/-- Leftmost search for pattern one.  The flag records whether the current
position is the start of the string, where the anchor alternative applies;
elsewhere a match consumes one non-alphanumeric separator first. -/
def searchPPattern (s : List Char) (atStart : Bool) : Option Char :=
  match (if atStart then matchPTail s else none) with
  | some d => some d
  | none =>
    match s with
    | [] => none
    | c :: rest =>
      match (if !isLowerAlnum c then matchPTail rest else none) with
      | some d => some d
      | none => searchPPattern rest false

/-- Matches a literal word, optional whitespace, and a captured digit 0-4
at the current position. -/
def matchLitTail (lit : List Char) (s : List Char) : Option Char :=
  if lit.isPrefixOf s then
    match (s.drop lit.length).dropWhile isJsWs with
    | d :: _ => if isDigit04 d then some d else none
    | [] => none
  else none

/-- Leftmost search for a literal-word pattern. -/
def searchLit (lit : List Char) : List Char → Option Char
  | [] => none
  | c :: rest =>
    match matchLitTail lit (c :: rest) with
    | some d => some d
    | none => searchLit lit rest

/-- Converts the UI-facing P-shorthand digit into a Todoist REST priority:
4 is the highest urgency (P1) and 1 is the lowest (P4).  Embeds
mapPriorityCueToApi. -/
def mapPriorityCueToApi (signal : String) : Option Nat :=
  if signal = "0" then some 4
  else if signal = "1" then some 4
  else if signal = "2" then some 3
  else if signal = "3" then some 2
  else if signal = "4" then some 1
  else none

/-- Scans the prompt for Todoist-style priority cues and maps the first one
through mapPriorityCueToApi; a mapped value of undefined lets later patterns
be tried.  Embeds detectPriorityFromPrompt. -/
def detectPriorityFromPrompt (prompt : String) : Option Nat :=
  let normalized := prompt.data.map jsLowerChar
  let step : Option Char → Option Nat → Option Nat := fun m next =>
    match m with
    | some d =>
      match mapPriorityCueToApi (String.mk [d]) with
      | some p => some p
      | none => next
    | none => next
  step (searchPPattern normalized true)
    (step (searchLit ['p', 'r', 'i', 'o', 'r', 'i', 't', 'y'] normalized)
      (step (searchLit "优先级".data normalized) none))

/-- The digit of the first priority cue found in the prompt, following the
same pattern order as detectPriorityFromPrompt. -/
def firstPriorityCue (prompt : String) : Option Char :=
  let normalized := prompt.data.map jsLowerChar
  match searchPPattern normalized true with
  | some d => some d
  | none =>
    match searchLit ['p', 'r', 'i', 'o', 'r', 'i', 't', 'y'] normalized with
    | some d => some d
    | none => searchLit "优先级".data normalized

theorem matchPTail_digit {s : List Char} {d : Char}
    (h : matchPTail s = some d) : isDigit04 d = true := by
  cases s with
  | nil => simp [matchPTail] at h
  | cons c rest =>
    simp only [matchPTail] at h
    split at h
    · split at h
      · split at h
        · exact Option.some.inj h ▸ (by assumption)
        · exact absurd h (by simp)
      · exact absurd h (by simp)
    · exact absurd h (by simp)

theorem searchPPattern_digit :
    ∀ (s : List Char) (b : Bool) {d : Char},
      searchPPattern s b = some d → isDigit04 d = true := by
  intro s
  induction s with
  | nil =>
    intro b d h
    cases b <;> simp [searchPPattern, matchPTail] at h
  | cons c rest ih =>
    intro b d h
    simp only [searchPPattern] at h
    split at h
    · rename_i d0 hd0
      cases h
      split at hd0
      · exact matchPTail_digit hd0
      · exact absurd hd0 (by simp)
    · split at h
      · rename_i d0 hd0
        cases h
        split at hd0
        · exact matchPTail_digit hd0
        · exact absurd hd0 (by simp)
      · exact ih false h

theorem matchLitTail_digit {lit s : List Char} {d : Char}
    (h : matchLitTail lit s = some d) : isDigit04 d = true := by
  simp only [matchLitTail] at h
  split at h
  · split at h
    · split at h
      · exact Option.some.inj h ▸ (by assumption)
      · exact absurd h (by simp)
    · exact absurd h (by simp)
  · exact absurd h (by simp)

theorem searchLit_digit :
    ∀ (lit s : List Char) {d : Char},
      searchLit lit s = some d → isDigit04 d = true := by
  intro lit s
  induction s with
  | nil => intro d h; simp [searchLit] at h
  | cons c rest ih =>
    intro d h
    simp only [searchLit] at h
    split at h
    · rename_i d0 hd0
      cases h
      exact matchLitTail_digit hd0
    · exact ih h

theorem mapPriorityCueToApi_of_digit {d : Char} (h : isDigit04 d = true) :
    (mapPriorityCueToApi (String.mk [d])).isSome = true := by
  simp only [isDigit04, Bool.or_eq_true, decide_eq_true_eq] at h
  rcases h with ((((h | h) | h) | h) | h) <;> subst h <;> decide

/-- C1 (amended): priority-cue detection computes the first cue digit found
by the three patterns and maps it through mapPriorityCueToApi, which sends
the P0 and P1 cues to API priority 4, P2 to 3, P3 to 2 and additionally P4
to 1; only when no pattern matches at all does detection return undefined. -/
theorem spec_C1_amended :
    (∀ prompt : String,
        detectPriorityFromPrompt prompt =
          (firstPriorityCue prompt).bind
            (fun d => mapPriorityCueToApi (String.mk [d]))) ∧
    mapPriorityCueToApi "0" = some 4 ∧ mapPriorityCueToApi "1" = some 4 ∧
    mapPriorityCueToApi "2" = some 3 ∧ mapPriorityCueToApi "3" = some 2 ∧
    mapPriorityCueToApi "4" = some 1 := by
  refine ⟨?_, by decide, by decide, by decide, by decide, by decide⟩
  intro prompt
  simp only [detectPriorityFromPrompt, firstPriorityCue]
  cases h1 : searchPPattern (prompt.data.map jsLowerChar) true with
  | some d =>
    have hd := mapPriorityCueToApi_of_digit (searchPPattern_digit _ _ h1)
    obtain ⟨p, hp⟩ := Option.isSome_iff_exists.mp hd
    simp [hp]
  | none =>
    cases h2 : searchLit ['p', 'r', 'i', 'o', 'r', 'i', 't', 'y']
        (prompt.data.map jsLowerChar) with
    | some d =>
      have hd := mapPriorityCueToApi_of_digit (searchLit_digit _ _ h2)
      obtain ⟨p, hp⟩ := Option.isSome_iff_exists.mp hd
      simp [hp]
    | none =>
      cases h3 : searchLit "优先级".data (prompt.data.map jsLowerChar) with
      | some d =>
        have hd := mapPriorityCueToApi_of_digit (searchLit_digit _ _ h3)
        obtain ⟨p, hp⟩ := Option.isSome_iff_exists.mp hd
        simp [hp]
      | none => simp

/-- C1 (counterexample): the prompt p4 carries a cue other than P0-P3, yet
detection returns priority 1 rather than undefined. -/
theorem spec_C1_counterexample : detectPriorityFromPrompt "p4" = some 1 := by
  decide

/-!
## Data model

Embeds the request, intent, scenario, metadata and task types of the route
module.  Numbers that the source schemas constrain to integers are Nat;
temperatures are exact rationals (the source only ever stores the literal
constants 0.1, 0.2, 0.25 and 0.35 and never computes with them).
-/

structure TodoistProjectSummary where
  id : String
  name : String
  isInbox : Bool
deriving DecidableEq, Repr

structure TodoistLabelSummary where
  id : String
  name : String
deriving DecidableEq, Repr

structure TodoistMetadata where
  projects : List TodoistProjectSummary
  labels : List TodoistLabelSummary
deriving DecidableEq, Repr

inductive IntentType
  | single_reminder
  | multi_step_plan
  | recipe_plan
  | general_plan
deriving DecidableEq, Repr

structure IntentDecision where
  intent : IntentType
  summary : Option String := none
  days : Option Nat := none
  keywords : Option (List String) := none
deriving DecidableEq, Repr

structure PlanRequestBody where
  prompt : String
  timezone : Option String := none
  due : Option String := none
  preferences : Option String := none
  labels : Option (List String) := none
  priority : Option Nat := none
  maxTasks : Nat := 5
deriving DecidableEq, Repr

structure PlanScenario where
  intent : IntentType
  maxTasks : Nat
  directives : List String
  temperature : ℚ
deriving DecidableEq, Repr

/-- Shape shared by a planned task's due object and a normalized task's due
object: at most one natural-language string, one date, one datetime. -/
structure TaskDue where
  string : Option String := none
  date : Option String := none
  datetime : Option String := none
deriving DecidableEq, Repr

def MIN_TASKS : Nat := 1

def MAX_TASKS : Nat := 10

/-!
## Scenario selection
-/

/-- The clamp helper defined inside determineScenario. -/
def clampMax (value : Nat) : Nat := min (max value MIN_TASKS) MAX_TASKS

/-- Embeds determineScenario: the pure mapping from an intent decision and
the request to the scenario configuration. -/
def determineScenario (decision : IntentDecision) (input : PlanRequestBody) :
    PlanScenario :=
  match decision.intent with
  | .single_reminder =>
    { intent := .single_reminder
      maxTasks := 1
      directives :=
        ["Return exactly one Todoist task that mirrors the reminder wording.",
         "Do not invent extra subtasks or routines; stay literal to the request."]
      temperature := 0.1 }
  | .recipe_plan =>
    let requestedDays := decision.days.getD 3
    let days := min (max requestedDays 1) 5
    let maxTasks := clampMax (days * 2)
    { intent := .recipe_plan
      maxTasks := maxTasks
      directives :=
        ["Produce meal-prep tasks covering " ++ toString days ++
           " day(s). Each task must mention the day and meal (Breakfast/Lunch/Dinner).",
         "Incorporate the provided ingredients creatively and avoid repeating the same dish twice in a row.",
         "Mention which ingredients are used inside the task description so the cook can verify coverage."]
      temperature := 0.35 }
  | .multi_step_plan =>
    { intent := .multi_step_plan
      maxTasks := clampMax (max 2 input.maxTasks)
      directives :=
        ["Break the day into distinct steps with clear sequencing or time anchors.",
         "Reference dependencies or prerequisites when relevant so the user can follow the workflow."]
      temperature := 0.25 }
  | .general_plan =>
    { intent := .general_plan
      maxTasks := clampMax input.maxTasks
      directives :=
        ["Balance the schedule so it feels focused yet achievable.",
         "Only add extra tasks when the request explicitly implies multiple actions."]
      temperature := 0.2 }

/-- The task-count column of the scenario table exactly as the spec words
it: 1 for a single reminder; twice the days (days from the decision,
defaulting to 3, clamped to one through five) clamped to one through ten
for a recipe plan; the request bound raised to at least 2 and clamped for a
multi-step plan; the clamped request bound for a general plan. -/
def specScenarioMaxTasks (decision : IntentDecision) (input : PlanRequestBody) :
    Nat :=
  match decision.intent with
  | .single_reminder => 1
  | .recipe_plan => min 10 (max 1 ((min 5 (max 1 (decision.days.getD 3))) * 2))
  | .multi_step_plan => min 10 (max 1 (max 2 input.maxTasks))
  | .general_plan => min 10 (max 1 input.maxTasks)

/-- The temperature column of the scenario table as the spec words it. -/
def specScenarioTemperature (intent : IntentType) : ℚ :=
  match intent with
  | .single_reminder => 0.1
  | .recipe_plan => 0.35
  | .multi_step_plan => 0.25
  | .general_plan => 0.2

theorem scenario_maxTasks_bounds (decision : IntentDecision)
    (input : PlanRequestBody) :
    1 ≤ (determineScenario decision input).maxTasks ∧
      (determineScenario decision input).maxTasks ≤ 10 := by
  cases h : decision.intent <;>
    simp [determineScenario, h, clampMax, MIN_TASKS, MAX_TASKS] <;> omega

/-- C6: scenario selection is the pure function of the intent decision and
the request given by the scenario table of the spec: it keeps the decided
intent, and its task bound and temperature agree with the table columns. -/
theorem spec_C6 :
    ∀ (decision : IntentDecision) (input : PlanRequestBody),
      (determineScenario decision input).intent = decision.intent ∧
      (determineScenario decision input).maxTasks =
        specScenarioMaxTasks decision input ∧
      (determineScenario decision input).temperature =
        specScenarioTemperature decision.intent := by
  intro decision input
  cases h : decision.intent <;>
    refine ⟨?_, ?_, ?_⟩ <;>
      simp [determineScenario, specScenarioMaxTasks, specScenarioTemperature,
        h, clampMax, MIN_TASKS, MAX_TASKS] <;> omega

/-!
## Due selection
-/

/-- Embeds selectDue: keeps the single highest-precedence due representation
among task datetime, task date, task string and the request-level hint.
JavaScript truthiness is preserved: an empty string counts as absent. -/
def selectDue (fromTask : Option TaskDue) (fallback : Option String) :
    Option TaskDue :=
  if fromTask.isNone && !(truthy fallback) then none
  else if truthy (fromTask.bind TaskDue.datetime) then
    some { datetime := fromTask.bind TaskDue.datetime }
  else if truthy (fromTask.bind TaskDue.date) then
    some { date := fromTask.bind TaskDue.date }
  else if truthy (fromTask.bind TaskDue.string) then
    some { string := fromTask.bind TaskDue.string }
  else if truthy fallback then some { string := fallback }
  else none

/-- C5: due selection keeps exactly one representation, chosen by the
precedence task datetime over task date over task string over the request
hint, and returns undefined exactly when none of the four is present
(present in the JavaScript sense: set and non-empty). -/
theorem spec_C5 (fromTask : Option TaskDue) (fallback : Option String) :
    (selectDue fromTask fallback = none ↔
      (truthy (fromTask.bind TaskDue.datetime) = false ∧
       truthy (fromTask.bind TaskDue.date) = false ∧
       truthy (fromTask.bind TaskDue.string) = false ∧
       truthy fallback = false)) ∧
    (truthy (fromTask.bind TaskDue.datetime) = true →
      selectDue fromTask fallback =
        some { datetime := fromTask.bind TaskDue.datetime }) ∧
    (truthy (fromTask.bind TaskDue.datetime) = false →
      truthy (fromTask.bind TaskDue.date) = true →
      selectDue fromTask fallback =
        some { date := fromTask.bind TaskDue.date }) ∧
    (truthy (fromTask.bind TaskDue.datetime) = false →
      truthy (fromTask.bind TaskDue.date) = false →
      truthy (fromTask.bind TaskDue.string) = true →
      selectDue fromTask fallback =
        some { string := fromTask.bind TaskDue.string }) ∧
    (truthy (fromTask.bind TaskDue.datetime) = false →
      truthy (fromTask.bind TaskDue.date) = false →
      truthy (fromTask.bind TaskDue.string) = false →
      truthy fallback = true →
      selectDue fromTask fallback = some { string := fallback }) ∧
    (∀ d : TaskDue, selectDue fromTask fallback = some d →
      ((d.datetime.isSome = true ∧ d.date = none ∧ d.string = none) ∨
       (d.datetime = none ∧ d.date.isSome = true ∧ d.string = none) ∨
       (d.datetime = none ∧ d.date = none ∧ d.string.isSome = true))) := by
  cases fromTask with
  | none =>
    by_cases h4 : truthy fallback <;>
      simp [selectDue, truthy, h4] <;>
      cases fallback <;> simp_all [truthy]
  | some ft =>
    by_cases h1 : truthy ft.datetime <;>
      by_cases h2 : truthy ft.date <;>
        by_cases h3 : truthy ft.string <;>
          by_cases h4 : truthy fallback <;>
            simp [selectDue, truthy, h1, h2, h3, h4] <;>
            simp_all [truthy, Option.getD] <;>
            solve
              | rfl
              | tauto
              | (cases hc : ft.datetime <;> simp_all)
              | (cases hc : ft.date <;> simp_all)
              | (cases hc : ft.string <;> simp_all)
              | (cases hc : fallback <;> simp_all)

/-- C5 witness: a task datetime wins over a request-level hint and is the
single representation kept. -/
theorem spec_C5_witness :
    truthy ((some { datetime := some "2025-01-02T09:00:00Z" } :
      Option TaskDue).bind TaskDue.datetime) = true ∧
    selectDue (some { datetime := some "2025-01-02T09:00:00Z" })
        (some "tomorrow") =
      some { datetime := (some { datetime := some "2025-01-02T09:00:00Z" } :
        Option TaskDue).bind TaskDue.datetime } := by
  refine ⟨by decide, ?_⟩
  exact (spec_C5 (some { datetime := some "2025-01-02T09:00:00Z" })
    (some "tomorrow")).2.1 (by decide)

/-!
## Label normalization
-/

/-- One step of the dedupe loop of dedupeLabels: the seen set carries the
lowercased labels already kept, the result carries kept labels in order,
and the loop stops early once five labels are kept. -/
def dedupeLoop (seen : List String) (result : List String) :
    List String → List String
  | [] => result
  | label :: rest =>
    let trimmed := jsTrim label
    if trimmed = "" || seen.contains (strLower trimmed) then
      dedupeLoop seen result rest
    else
      let result2 := result ++ [trimmed]
      if result2.length = 5 then result2
      else dedupeLoop (strLower trimmed :: seen) result2 rest

/-- Embeds dedupeLabels: case-insensitive first-occurrence dedup, capped at
five, returning undefined instead of an empty array. -/
def dedupeLabels (labels : Option (List String)) : Option (List String) :=
  match labels with
  | none => none
  | some ls =>
    if ls.length = 0 then none
    else
      let result := dedupeLoop [] [] ls
      if result.length = 0 then none else some result

/-- The per-label canonicalization step of normalizeLabels: trim, drop empty
labels, and restore the casing of the first catalog label equal up to case. -/
def canonicalizeLabel (context : TodoistMetadata) (label : String) :
    Option String :=
  let trimmed := jsTrim label
  if trimmed = "" then none
  else
    match context.labels.find? (fun entry =>
        strLower entry.name = strLower trimmed) with
    | some canonical => some canonical.name
    | none => some trimmed

/-- The source selection of normalizeLabels: a non-empty task label list
wins, else the request labels when defined (even empty), else the inferred
labels. -/
def labelSource (preferred fallback inferred : Option (List String)) :
    Option (List String) :=
  if (preferred.getD []).length ≠ 0 then preferred
  else fallback.orElse (fun _ => inferred)

/-- The canonicalization pass of normalizeLabels: map each label through
canonicalizeLabel and keep the truthy results (the filter over Boolean). -/
def canonList (context : TodoistMetadata) (ls : List String) : List String :=
  (ls.map (canonicalizeLabel context)).filterMap
    (fun x => if truthy x then x else none)

/-- Embeds normalizeLabels: choose the label source by precedence, map each
label through catalog canonicalization, keep the truthy results, dedupe. -/
def normalizeLabels (preferred : Option (List String))
    (fallback : Option (List String)) (context : TodoistMetadata)
    (inferred : Option (List String)) : Option (List String) :=
  match labelSource preferred fallback inferred with
  | none => none
  | some ls =>
    if ls.length = 0 then none
    else dedupeLabels (some (canonList context ls))

/-!
## Project resolution, prompt inference, task normalization
-/

/-- A planned task as produced by the generation schema. -/
structure PlannedTask where
  title : String
  description : Option String := none
  priority : Option Nat := none
  labels : Option (List String) := none
  projectId : Option String := none
  project : Option String := none
  due : Option TaskDue := none
deriving DecidableEq, Repr

/-- A task after normalization, ready for the sync loop. -/
structure NormalizedTask where
  title : String
  description : Option String := none
  priority : Option Nat := none
  labels : Option (List String) := none
  due : Option TaskDue := none
  projectId : Option String := none
  projectName : Option String := none
deriving DecidableEq, Repr

/-- Result of resolveProjectReference: a project id when one is known plus
a display name. -/
structure ProjectRef where
  id : Option String
  name : String
deriving DecidableEq, Repr

/-- Embeds resolveProjectReference: task projectId over task project name
over the prompt-inferred project, matched against the catalog. -/
def resolveProjectReference (task : PlannedTask) (context : TodoistMetadata)
    (inferred : Option TodoistProjectSummary) : Option ProjectRef :=
  if context.projects.length = 0 && !(truthy task.projectId) &&
      !(truthy task.project) && inferred.isNone then
    none
  else if truthy task.projectId then
    let pid := task.projectId.getD ""
    let known := context.projects.find? (fun project => project.id = pid)
    some { id := some pid
           name := (known.map TodoistProjectSummary.name).getD
             (task.project.getD pid) }
  else if truthy task.project then
    let normalized := jsTrim (task.project.getD "")
    match context.projects.find? (fun project =>
        strLower project.name = strLower normalized) with
    | some known => some { id := some known.id, name := known.name }
    | none => some { id := none, name := normalized }
  else
    match inferred with
    | some p => some { id := some p.id, name := p.name }
    | none => none

/-- Embeds clampPriority (rounding is the identity on integer priorities). -/
def clampPriority (priority : Option Nat) : Option Nat :=
  priority.map (fun p => min 4 (max 1 p))

/-- Substring test modelling String.prototype.includes. -/
def strIncludes (needle : List Char) : List Char → Bool
  | [] => needle.isPrefixOf []
  | c :: rest => needle.isPrefixOf (c :: rest) || strIncludes needle rest

/-- Embeds inferProjectFromPrompt: the first non-inbox catalog project whose
lowercased name occurs in the lowercased prompt. -/
def inferProjectFromPrompt (prompt : String) (context : TodoistMetadata) :
    Option TodoistProjectSummary :=
  if context.projects.length = 0 then none
  else
    let normalizedPrompt := prompt.data.map jsLowerChar
    context.projects.find? (fun project =>
      strIncludes (project.name.data.map jsLowerChar) normalizedPrompt &&
        !project.isInbox)

/-- Embeds inferLabelsFromPrompt: all catalog label names occurring in the
lowercased prompt, or undefined when there are none. -/
def inferLabelsFromPrompt (prompt : String) (context : TodoistMetadata) :
    Option (List String) :=
  if context.labels.length = 0 then none
  else
    let normalizedPrompt := prompt.data.map jsLowerChar
    let found := (context.labels.filter (fun label =>
        strIncludes (label.name.data.map jsLowerChar) normalizedPrompt)).map
      TodoistLabelSummary.name
    if found.length ≠ 0 then some found else none


/-- Embeds normalizeTask: trims text, resolves priority by precedence (task
over prompt hint over request), normalizes labels and due, and attaches the
resolved project reference. -/
def normalizeTask (task : PlannedTask) (input : PlanRequestBody)
    (context : TodoistMetadata) (priorityHint : Option Nat)
    (inferredProject : Option TodoistProjectSummary)
    (inferredLabels : Option (List String)) : NormalizedTask :=
  let project := resolveProjectReference task context inferredProject
  { title := jsTrim task.title
    description := task.description.map jsTrim
    priority := clampPriority
      ((task.priority.orElse (fun _ => priorityHint)).orElse
        (fun _ => input.priority))
    labels := normalizeLabels task.labels input.labels context inferredLabels
    due := selectDue task.due input.due
    projectId := project.bind ProjectRef.id
    projectName := project.map ProjectRef.name }

/-!
## Plan generation
-/

/-- The payload the generation call must deliver: an optional summary and a
task list validated by the plan schema. -/
structure AiPlan where
  summary : Option String := none
  tasks : List PlannedTask
deriving DecidableEq, Repr

/-- The per-task constraints of the plan zod schema. -/
def plannedTaskValid (t : PlannedTask) : Bool :=
  1 ≤ t.title.length &&
  (match t.priority with
   | some p => 1 ≤ p && p ≤ 4
   | none => true) &&
  (match t.labels with
   | some ls => ls.length ≤ 5 && ls.all (fun l => 1 ≤ l.length)
   | none => true)

/-- The zod parse of the plan payload: at least MIN_TASKS tasks, each of
them satisfying the per-task schema. -/
def aiPlanSchemaParse (raw : AiPlan) : Except String AiPlan :=
  if MIN_TASKS ≤ raw.tasks.length && raw.tasks.all plannedTaskValid then
    Except.ok raw
  else Except.error "Plan payload failed schema validation"

/-- The value generatePlan resolves with on success. -/
structure GeneratedPlan where
  summary : Option String := none
  tasks : List NormalizedTask
deriving DecidableEq, Repr

/-- Embeds generatePlan.  The generation call (model run plus payload
extraction) is an outcome parameter: a raw plan or a thrown error.  The
schema parse, the truncation to the scenario bound, per-task normalization
and the empty-result failure follow the source. -/
def generatePlan (aiResponse : Except String AiPlan) (input : PlanRequestBody)
    (scenario : PlanScenario) (context : TodoistMetadata)
    (priorityHint : Option Nat)
    (inferredProject : Option TodoistProjectSummary)
    (inferredLabels : Option (List String)) : Except String GeneratedPlan :=
  match aiResponse with
  | Except.error e => Except.error e
  | Except.ok raw =>
    match aiPlanSchemaParse raw with
    | Except.error e => Except.error e
    | Except.ok plan =>
      let normalized := (plan.tasks.take scenario.maxTasks).map
        (fun task =>
          normalizeTask task input context priorityHint inferredProject
            inferredLabels)
      if normalized.length = 0 then
        Except.error "The assistant did not return any tasks"
      else Except.ok { summary := plan.summary, tasks := normalized }

/-- C4: a successfully generated plan carries at least one and at most
scenario.maxTasks normalized tasks (a zero-task outcome is an error, never
an empty success), and every selected scenario bound lies between 1 and
10. -/
theorem spec_C4 :
    (∀ (aiResponse : Except String AiPlan) (input : PlanRequestBody)
        (scenario : PlanScenario) (context : TodoistMetadata)
        (priorityHint : Option Nat)
        (inferredProject : Option TodoistProjectSummary)
        (inferredLabels : Option (List String)) (plan : GeneratedPlan),
      generatePlan aiResponse input scenario context priorityHint
          inferredProject inferredLabels = Except.ok plan →
        1 ≤ plan.tasks.length ∧ plan.tasks.length ≤ scenario.maxTasks) ∧
    (∀ (decision : IntentDecision) (input : PlanRequestBody),
      1 ≤ (determineScenario decision input).maxTasks ∧
        (determineScenario decision input).maxTasks ≤ 10) := by
  constructor
  · intro aiResponse input scenario context priorityHint ip il plan h
    cases aiResponse with
    | error e => exact absurd h (by simp [generatePlan])
    | ok raw =>
      simp only [generatePlan] at h
      cases hp : aiPlanSchemaParse raw with
      | error e => rw [hp] at h; exact absurd h (by simp)
      | ok parsed =>
        rw [hp] at h
        dsimp only at h
        by_cases hz : ((parsed.tasks.take scenario.maxTasks).map
            (fun task =>
              normalizeTask task input context priorityHint ip il)).length = 0
        case pos => rw [if_pos hz] at h; exact absurd h (by simp)
        case neg =>
          rw [if_neg hz] at h
          have hp2 := (Except.ok.inj h).symm
          subst hp2
          simp only [List.length_map, List.length_take] at hz ⊢
          omega
  · exact fun decision input => scenario_maxTasks_bounds decision input

/-- C4 witness: a one-task response under the default general scenario
yields a plan of exactly one task within the scenario bound. -/
theorem spec_C4_witness :
    (generatePlan (Except.ok { tasks := [{ title := "Buy milk" }] })
        { prompt := "hi" }
        (determineScenario { intent := IntentType.general_plan }
          { prompt := "hi" })
        { projects := [], labels := [] } none none none =
      Except.ok { summary := none, tasks := [{ title := "Buy milk" }] }) ∧
    (1 ≤ 1 ∧ 1 ≤ (determineScenario { intent := IntentType.general_plan }
        { prompt := "hi" }).maxTasks) := by
  have h : generatePlan (Except.ok { tasks := [{ title := "Buy milk" }] })
      { prompt := "hi" }
      (determineScenario { intent := IntentType.general_plan }
        { prompt := "hi" })
      { projects := [], labels := [] } none none none =
      Except.ok { summary := none, tasks := [{ title := "Buy milk" }] } := by
    rfl
  refine ⟨h, ?_⟩
  have := spec_C4.1 _ _ _ _ _ _ _ _ h
  simpa using this

/-!
## Creation-tool resolution
-/

/-- An externally advertised tool descriptor. -/
structure Tool where
  name : String
  description : Option String := none
deriving DecidableEq, Repr

/-- The fixed preference order of known creation tool names. -/
def preferredCreateTools : List String :=
  ["create_task", "add-task", "add_task", "create-task", "add-tasks",
   "add_tasks"]

/-- The candidate loop of resolveToolName: first preferred name present in
the catalog. -/
def findPreferredTool (toolsList : List Tool) : List String → Option String
  | [] => none
  | candidate :: rest =>
    if toolsList.any (fun tool => tool.name = candidate) then some candidate
    else findPreferredTool toolsList rest

/-- Embeds resolveToolName.  The url argument only feeds the error message;
the client's tool listing, used when no catalog was passed in, is the
listedTools outcome parameter. -/
def resolveToolName (url : String) (token : String)
    (availableTools : Option (List Tool))
    (listedTools : Except String (List Tool)) : Except String String :=
  if token = "" then
    Except.error "TODOIST_TOKEN is required to contact the MCP server"
  else
    match
      (match availableTools with
       | some ts => Except.ok ts
       | none => listedTools) with
    | Except.error e => Except.error e
    | Except.ok toolsList =>
      match findPreferredTool toolsList preferredCreateTools with
      | some name => Except.ok name
      | none =>
        let available := String.intercalate ", " (toolsList.map Tool.name)
        Except.error
          ("No Todoist create task tool found. Available tools: " ++
            (if available = "" then "none" else available) ++ " @ " ++ url)

theorem findPreferredTool_eq_find (ts : List Tool) (l : List String) :
    findPreferredTool ts l =
      l.find? (fun c => ts.any (fun t => t.name = c)) := by
  induction l with
  | nil => rfl
  | cons c rest ih =>
    simp only [findPreferredTool, List.find?]
    by_cases h : ts.any (fun t => t.name = c) <;> simp [h, ih]

/-- C7: with a token configured and a catalog at hand, creation-tool
resolution returns the first name of the fixed preference list appearing
among the catalog's tool names, and fails with an error when none of the
preferred names appears. -/
theorem spec_C7 (url token : String) (tools : List Tool)
    (listedTools : Except String (List Tool)) (htoken : token ≠ "") :
    (∀ n : String,
      preferredCreateTools.find?
          (fun c => tools.any (fun t => t.name = c)) = some n →
        resolveToolName url token (some tools) listedTools = Except.ok n) ∧
    (preferredCreateTools.find?
        (fun c => tools.any (fun t => t.name = c)) = none →
      ∃ msg : String,
        resolveToolName url token (some tools) listedTools =
          Except.error msg) := by
  constructor
  · intro n hn
    simp only [resolveToolName, if_neg htoken, findPreferredTool_eq_find, hn]
  · intro hn
    refine ⟨"No Todoist create task tool found. Available tools: " ++
        (if String.intercalate ", " (tools.map Tool.name) = "" then "none"
         else String.intercalate ", " (tools.map Tool.name)) ++ " @ " ++ url,
      ?_⟩
    simp only [resolveToolName, if_neg htoken, findPreferredTool_eq_find, hn]

/-- C7 witness: a catalog exposing add_task and create_task resolves to
create_task, the most preferred present name. -/
theorem spec_C7_witness :
    ("tok" : String) ≠ "" ∧
    resolveToolName "https://mcp.example" "tok"
        (some [{ name := "add_task" }, { name := "create_task" }])
        (Except.ok []) = Except.ok "create_task" := by
  refine ⟨by decide, ?_⟩
  exact (spec_C7 "https://mcp.example" "tok"
      [{ name := "add_task" }, { name := "create_task" }]
      (Except.ok []) (by decide)).1 "create_task" (by decide)

/-!
## Array payload extraction
-/

/-- JSON-like values of a tool response payload. -/
inductive Json where
  | null
  | bool (b : Bool)
  | num (n : Int)
  | str (s : String)
  | arr (elems : List Json)
  | obj (fields : List (String × Json))

/-- JavaScript falsiness of a value. -/
def jsFalsy : Json → Bool
  | Json.null => true
  | Json.bool b => !b
  | Json.num n => n = 0
  | Json.str s => s = ""
  | Json.arr _ => false
  | Json.obj _ => false

/-- Property access on an object value. -/
def jsLookup : List (String × Json) → String → Option Json
  | [], _ => none
  | (k, v) :: rest, key => if k = key then some v else jsLookup rest key

theorem jsLookup_sizeOf {fields : List (String × Json)} {key : String}
    {v : Json} (h : jsLookup fields key = some v) :
    sizeOf v < sizeOf fields := by
  induction fields with
  | nil => simp [jsLookup] at h
  | cons p rest ih =>
    obtain ⟨k, w⟩ := p
    simp only [jsLookup] at h
    by_cases hk : k = key
    · rw [if_pos hk] at h
      cases h
      simp
      omega
    · rw [if_neg hk] at h
      have := ih h
      simp
      omega

mutual

/-- Embeds pluckArray: returns the value itself when it is an array, else
searches the listed keys of an object in order, recursing into object
values; falsy and primitive values yield undefined. -/
def pluckArray (value : Json) (keys : List String) : Option (List Json) :=
  if jsFalsy value then none
  else
    match value with
    | Json.arr elems => some elems
    | Json.obj fields => pluckLoop fields keys keys
    | _ => none
termination_by (sizeOf value, 0)
decreasing_by
  simp_wf
  apply Prod.Lex.left
  omega

/-- The key loop of pluckArray; allKeys is the key list of the enclosing
call, which nested recursion restarts from. -/
def pluckLoop (fields : List (String × Json)) (allKeys : List String) :
    List String → Option (List Json)
  | [] => none
  | key :: rest =>
    match h : jsLookup fields key with
    | some (Json.arr elems) => some elems
    | some (Json.obj f2) =>
      match pluckArray (Json.obj f2) allKeys with
      | some nested => some nested
      | none => pluckLoop fields allKeys rest
    | _ => pluckLoop fields allKeys rest
termination_by keys => (sizeOf fields, keys.length)
decreasing_by
  all_goals simp_wf
  · have hs := jsLookup_sizeOf h
    simp at hs
    apply Prod.Lex.left
    omega
  · apply Prod.Lex.right
    omega
  · apply Prod.Lex.right
    omega

end

/-- The default envelope key set searched by extractArrayPayload. -/
def DEFAULT_COLLECTION_KEYS : List String :=
  ["projects", "labels", "data", "items", "results", "structuredContent"]

/-- Embeds extractArrayPayload.  The response has already gone through
parseToolJson, whose result (a JSON value, or undefined when nothing was
parseable) is the first argument; pluckArray of undefined is undefined. -/
def extractArrayPayload (parsed : Option Json)
    (preferredKeys : Option (List String)) : List Json :=
  let keys := preferredKeys.getD DEFAULT_COLLECTION_KEYS
  let direct := match parsed with
    | none => none
    | some v => pluckArray v keys
  direct.getD []

mutual

/-- Whether a value contains an array anywhere, at any depth or key. -/
def containsArray : Json → Bool
  | Json.arr _ => true
  | Json.obj fields => containsArrayL fields
  | _ => false

/-- List form of containsArray over an object's fields. -/
def containsArrayL : List (String × Json) → Bool
  | [] => false
  | (_, v) :: rest => containsArray v || containsArrayL rest

end

theorem containsArray_lookup {fields : List (String × Json)} {key : String}
    {v : Json} (hf : containsArrayL fields = false)
    (h : jsLookup fields key = some v) : containsArray v = false := by
  induction fields with
  | nil => simp [jsLookup] at h
  | cons p rest ih =>
    obtain ⟨k, w⟩ := p
    simp only [containsArrayL, Bool.or_eq_false_iff] at hf
    simp only [jsLookup] at h
    by_cases hk : k = key
    · rw [if_pos hk] at h
      cases h
      exact hf.1
    · rw [if_neg hk] at h
      exact ih hf.2 h

theorem pluckLoop_none_of_no_array (n : Nat)
    (ihyp : ∀ v : Json, sizeOf v ≤ n → containsArray v = false →
      ∀ keys, pluckArray v keys = none)
    (fields : List (String × Json)) (hf : containsArrayL fields = false)
    (hs : sizeOf fields ≤ n) (allKeys : List String) :
    ∀ ks, pluckLoop fields allKeys ks = none := by
  intro ks
  induction ks with
  | nil => simp [pluckLoop]
  | cons key rest ihk =>
    simp only [pluckLoop]
    split
    · rename_i elems h
      have hv := containsArray_lookup hf h
      simp [containsArray] at hv
    · rename_i f2 h
      have hv := containsArray_lookup hf h
      have hsz : sizeOf (Json.obj f2) ≤ n := by
        have := jsLookup_sizeOf h
        simp at this ⊢
        omega
      have hzero := ihyp (Json.obj f2) hsz hv allKeys
      simp [hzero, ihk]
    · exact ihk

theorem pluckArray_none_of_no_array :
    ∀ (n : Nat) (v : Json), sizeOf v ≤ n → containsArray v = false →
      ∀ keys, pluckArray v keys = none := by
  intro n
  induction n with
  | zero =>
    intro v hv
    cases v <;> simp at hv
  | succ n ih =>
    intro v hv hc keys
    cases v with
    | arr elems => simp [containsArray] at hc
    | obj fields =>
      have hf : containsArrayL fields = false := by
        simpa [containsArray] using hc
      have hs : sizeOf fields ≤ n := by
        simp at hv
        omega
      simp only [pluckArray, jsFalsy]
      exact pluckLoop_none_of_no_array n ih fields hf hs keys keys
    | null => simp [pluckArray, jsFalsy]
    | bool b => cases b <;> simp [pluckArray, jsFalsy]
    | num m => by_cases hm : m = 0 <;> simp [pluckArray, jsFalsy, hm]
    | str s => by_cases hst : s = "" <;> simp [pluckArray, jsFalsy, hst]

theorem pluckArray_obj (fields : List (String × Json)) (keys : List String) :
    pluckArray (Json.obj fields) keys = pluckLoop fields keys keys := by
  simp [pluckArray, jsFalsy]

theorem pluckLoop_isSome_of_mem
    {fields : List (String × Json)} {k : String} {elems : List Json}
    (hl : jsLookup fields k = some (Json.arr elems)) (allKeys : List String) :
    ∀ ks : List String, k ∈ ks →
      (pluckLoop fields allKeys ks).isSome = true := by
  intro ks
  induction ks with
  | nil => intro hmem; simp at hmem
  | cons key rest ihk =>
    intro hmem
    simp only [pluckLoop]
    split
    · simp
    · rename_i f2 h
      cases hpa : pluckArray (Json.obj f2) allKeys with
      | some nested => simp [hpa]
      | none =>
        simp only [hpa]
        have hne : k ≠ key := by
          intro he
          rw [← he, hl] at h
          cases h
        refine ihk ?_
        cases hmem with
        | head => exact absurd rfl hne
        | tail _ hm => exact hm
    · rename_i hx1 hx2
      have hne : k ≠ key := by
        intro he
        exact hx1 elems (he ▸ hl)
      refine ihk ?_
      cases hmem with
      | head => exact absurd rfl hne
      | tail _ hm => exact hm

theorem pluckLoop_isSome_of_nested
    {fields : List (String × Json)} {k k2 : String}
    {f2 : List (String × Json)} {elems : List Json}
    (hl : jsLookup fields k = some (Json.obj f2))
    (hl2 : jsLookup f2 k2 = some (Json.arr elems))
    {allKeys : List String} (hk2 : k2 ∈ allKeys) :
    ∀ ks : List String, k ∈ ks →
      (pluckLoop fields allKeys ks).isSome = true := by
  intro ks
  induction ks with
  | nil => intro hmem; simp at hmem
  | cons key rest ihk =>
    intro hmem
    simp only [pluckLoop]
    split
    · simp
    · rename_i g h
      cases hpa : pluckArray (Json.obj g) allKeys with
      | some nested => simp [hpa]
      | none =>
        simp only [hpa]
        by_cases he : k = key
        · exfalso
          have hg : f2 = g := by
            rw [← he, hl] at h
            exact Json.obj.inj (Option.some.inj h)
          subst hg
          rw [pluckArray_obj] at hpa
          have := pluckLoop_isSome_of_mem hl2 allKeys allKeys hk2
          rw [hpa] at this
          simp at this
        · refine ihk ?_
          cases hmem with
          | head => exact absurd rfl he
          | tail _ hm => exact hm
    · rename_i hx1 hx2
      have hne : k ≠ key := by
        intro he
        exact hx2 f2 (he ▸ hl)
      refine ihk ?_
      cases hmem with
      | head => exact absurd rfl hne
      | tail _ hm => exact hm

/-- C8: array-payload extraction is total; it finds an array wrapped
directly under a listed key (returning exactly that array when it sits under
the first key) or one level of object nesting deeper, and it returns the
empty array when the value holds no array anywhere. -/
theorem spec_C8 :
    (∀ pk : Option (List String), extractArrayPayload none pk = []) ∧
    (∀ (v : Json) (pk : Option (List String)), containsArray v = false →
      extractArrayPayload (some v) pk = []) ∧
    (∀ (fields : List (String × Json)) (key : String) (rest : List String)
        (elems : List Json),
      jsLookup fields key = some (Json.arr elems) →
        pluckArray (Json.obj fields) (key :: rest) = some elems) ∧
    (∀ (fields : List (String × Json)) (keys : List String) (k : String)
        (elems : List Json),
      k ∈ keys → jsLookup fields k = some (Json.arr elems) →
        (pluckArray (Json.obj fields) keys).isSome = true) ∧
    (∀ (fields : List (String × Json)) (keys : List String) (k k2 : String)
        (f2 : List (String × Json)) (elems : List Json),
      k ∈ keys → k2 ∈ keys → jsLookup fields k = some (Json.obj f2) →
        jsLookup f2 k2 = some (Json.arr elems) →
        (pluckArray (Json.obj fields) keys).isSome = true) ∧
    (∀ (v : Json) (pk : Option (List String)),
      (∃ elems, pluckArray v (pk.getD DEFAULT_COLLECTION_KEYS) = some elems ∧
        extractArrayPayload (some v) pk = elems) ∨
      (pluckArray v (pk.getD DEFAULT_COLLECTION_KEYS) = none ∧
        extractArrayPayload (some v) pk = [])) := by
  refine ⟨?_, ?_, ?_, ?_, ?_, ?_⟩
  · intro pk
    simp [extractArrayPayload]
  · intro v pk hc
    have := pluckArray_none_of_no_array (sizeOf v) v le_rfl hc
      (pk.getD DEFAULT_COLLECTION_KEYS)
    simp [extractArrayPayload, this]
  · intro fields key rest elems hlk
    rw [pluckArray_obj]
    simp only [pluckLoop]
    split
    · rename_i e h
      rw [hlk] at h
      have := Json.arr.inj (Option.some.inj h)
      rw [this]
    · rename_i g h
      rw [hlk] at h
      cases h
    · rename_i hx1 hx2
      exact absurd hlk (by intro hh; exact hx1 elems hh)
  · intro fields keys k elems hmem hlk
    rw [pluckArray_obj]
    exact pluckLoop_isSome_of_mem hlk keys keys hmem
  · intro fields keys k k2 f2 elems hmem hmem2 hlk hlk2
    rw [pluckArray_obj]
    exact pluckLoop_isSome_of_nested hlk hlk2 hmem2 keys hmem
  · intro v pk
    cases hpa : pluckArray v (pk.getD DEFAULT_COLLECTION_KEYS) with
    | some elems =>
      left
      exact ⟨elems, rfl, by simp [extractArrayPayload, hpa]⟩
    | none =>
      right
      exact ⟨rfl, by simp [extractArrayPayload, hpa]⟩

/-- C8 witness: an array wrapped under the key data is extracted both when
data heads the key list and through the default key search. -/
theorem spec_C8_witness :
    (jsLookup [("data", Json.arr [Json.num 1])] "data" =
      some (Json.arr [Json.num 1])) ∧
    pluckArray (Json.obj [("data", Json.arr [Json.num 1])])
        ("data" :: DEFAULT_COLLECTION_KEYS) = some [Json.num 1] := by
  have h : jsLookup [("data", Json.arr [Json.num 1])] "data" =
      some (Json.arr [Json.num 1]) := rfl
  exact ⟨h, spec_C8.2.2.1 _ _ _ _ h⟩

/-!
## Sync loop
-/

inductive SyncStatus
  | created
  | failed
deriving DecidableEq, Repr

/-- The per-task outcome record collected by syncWithTodoist. -/
structure TodoistTaskResult where
  planned : NormalizedTask
  status : SyncStatus
  todoistId : Option String := none
  error : Option String := none
deriving DecidableEq, Repr

/-- The streamed NDJSON events (timestamps and elapsed milliseconds, being
wall-clock readings, are omitted from the embedding). -/
inductive Event where
  | debugTools (tools : List Tool)
  | debugError (stage : String) (message : String)
  | status (stage : String) (message : String)
  | debugMetadata (projects : List TodoistProjectSummary)
      (labels : List TodoistLabelSummary)
  | debugInference (inferredProject : Option TodoistProjectSummary)
      (inferredLabels : Option (List String)) (priorityHint : Option Nat)
  | aiPlan (summary : Option String) (tasks : List NormalizedTask)
      (intent : IntentType)
  | todoistTask (status : String) (task : NormalizedTask)
      (todoistId : Option String) (error : Option String)
  | final (created : Nat) (failed : Nat) (tasks : List TodoistTaskResult)
  | error (message : String) (detail : String)
deriving DecidableEq, Repr

/-- Whether an event terminates the stream. -/
def isTerminalEvent : Event → Bool
  | Event.final _ _ _ => true
  | Event.error _ _ => true
  | _ => false

/-- Whether an event is the terminal error event. -/
def isErrorEvent : Event → Bool
  | Event.error _ _ => true
  | _ => false

/-- The for-loop of syncWithTodoist.  Each task emits a pending event, then
its external creation call either resolves with an optional created id or
throws with a message; the loop records the outcome and always continues.
The outcome function is indexed by the position of the task in the list. -/
def syncLoop (outcome : Nat → Except String (Option String)) :
    List NormalizedTask → Nat → List TodoistTaskResult × List Event
  | [], _ => ([], [])
  | task :: rest, idx =>
    match outcome idx with
    | Except.ok createdId =>
      let next := syncLoop outcome rest (idx + 1)
      (⟨task, SyncStatus.created, createdId, none⟩ :: next.1,
       Event.todoistTask "pending" task none none ::
         Event.todoistTask "created" task createdId none :: next.2)
    | Except.error message =>
      let next := syncLoop outcome rest (idx + 1)
      (⟨task, SyncStatus.failed, none, some message⟩ :: next.1,
       Event.todoistTask "pending" task none none ::
         Event.todoistTask "failed" task none (some message) :: next.2)

/-- The pieces of the Cloudflare environment the pipeline reads.  mcpUrl
is the TODOIST_MCP_URL value (empty when unset); mcpUrlValid tells whether
the URL constructor accepts it; token is TODOIST_TOKEN (empty when unset). -/
structure Env where
  mcpUrl : String
  mcpUrlValid : Bool
  token : String
deriving DecidableEq, Repr

/-- Embeds syncWithTodoist: validate the configured URL, resolve the
creation tool once (fatal on failure), then run the per-task loop.  The
resolved tool name only shapes the call arguments, which the per-task
outcome function absorbs. -/
def syncWithTodoist (env : Env) (tasks : List NormalizedTask)
    (availableTools : Option (List Tool))
    (listedTools : Except String (List Tool))
    (outcome : Nat → Except String (Option String)) :
    Except String (List TodoistTaskResult × List Event) :=
  if env.mcpUrl = "" || !env.mcpUrlValid then
    Except.error "TODOIST_MCP_URL must be a valid URL"
  else
    match resolveToolName env.mcpUrl env.token availableTools listedTools with
    | Except.error e => Except.error e
    | Except.ok _ => Except.ok (syncLoop outcome tasks 0)

/-- The created counter computed over the results by the route handler. -/
def createdCount (results : List TodoistTaskResult) : Nat :=
  (results.filter (fun item => item.status = SyncStatus.created)).length

/-- The failed counter computed over the results by the route handler. -/
def failedCount (results : List TodoistTaskResult) : Nat :=
  (results.filter (fun item => item.status = SyncStatus.failed)).length

theorem syncLoop_length (outcome : Nat → Except String (Option String)) :
    ∀ (tasks : List NormalizedTask) (start : Nat),
      (syncLoop outcome tasks start).1.length = tasks.length := by
  intro tasks
  induction tasks with
  | nil => intro start; rfl
  | cons t rest ih =>
    intro start
    cases h : outcome start <;> simp [syncLoop, h, ih]

theorem syncLoop_get (outcome : Nat → Except String (Option String)) :
    ∀ (tasks : List NormalizedTask) (start i : Nat),
      (syncLoop outcome tasks start).1.get? i =
        (tasks.get? i).map (fun t =>
          match outcome (start + i) with
          | Except.ok cid => ⟨t, SyncStatus.created, cid, none⟩
          | Except.error m => ⟨t, SyncStatus.failed, none, some m⟩) := by
  intro tasks
  induction tasks with
  | nil => intro start i; simp [syncLoop]
  | cons t rest ih =>
    intro start i
    cases i with
    | zero => cases h : outcome start <;> simp [syncLoop, h]
    | succ j =>
      have harith : start + 1 + j = start + (j + 1) := by omega
      cases h : outcome start <;>
        (simp only [syncLoop, h, List.get?_cons_succ]
         rw [ih (start + 1) j, harith])

/-- C2: the sync loop yields exactly one result per input task, in input
order; a task whose external call throws is recorded as failed with the
error message and the loop continues; with three tasks where only the
second call throws the results read created, failed, created and the final
counters are two created, one failed. -/
theorem spec_C2 :
    (∀ (outcome : Nat → Except String (Option String))
        (tasks : List NormalizedTask),
      (syncLoop outcome tasks 0).1.length = tasks.length) ∧
    (∀ (outcome : Nat → Except String (Option String))
        (tasks : List NormalizedTask) (i : Nat),
      (syncLoop outcome tasks 0).1.get? i =
        (tasks.get? i).map (fun t =>
          match outcome i with
          | Except.ok cid => ⟨t, SyncStatus.created, cid, none⟩
          | Except.error m => ⟨t, SyncStatus.failed, none, some m⟩)) ∧
    (∀ (t1 t2 t3 : NormalizedTask) (id1 id3 : Option String) (msg : String),
      (syncLoop (fun i => if i = 0 then Except.ok id1
          else if i = 1 then Except.error msg else Except.ok id3)
          [t1, t2, t3] 0).1 =
        [⟨t1, SyncStatus.created, id1, none⟩,
         ⟨t2, SyncStatus.failed, none, some msg⟩,
         ⟨t3, SyncStatus.created, id3, none⟩] ∧
      createdCount (syncLoop (fun i => if i = 0 then Except.ok id1
          else if i = 1 then Except.error msg else Except.ok id3)
          [t1, t2, t3] 0).1 = 2 ∧
      failedCount (syncLoop (fun i => if i = 0 then Except.ok id1
          else if i = 1 then Except.error msg else Except.ok id3)
          [t1, t2, t3] 0).1 = 1) := by
  refine ⟨?_, ?_, ?_⟩
  · intro outcome tasks
    exact syncLoop_length outcome tasks 0
  · intro outcome tasks i
    simpa using syncLoop_get outcome tasks 0 i
  · intro t1 t2 t3 id1 id3 msg
    refine ⟨?_, ?_, ?_⟩ <;>
      simp [syncLoop, createdCount, failedCount]

/-!
## The streaming pipeline

runPlanStream embeds the async body of the POST handler as a function from
the outcomes of every external interaction to the list of events the
stream emits before closing.  Thrown errors travel to the shared catch
block, which emits the terminal error event; the final summary event closes
the success path.  Client cleanup in the finally block emits nothing.
-/

/-- Outcomes of the external interactions of one POST request. -/
structure Outcomes where
  env : Env
  connect : Except String Unit
  listTools : Except String (Option (List Tool))
  intentDecision : IntentDecision
  request : PlanRequestBody
  metadata : TodoistMetadata
  planOutcome : Except String AiPlan
  listedTools2 : Except String (List Tool)
  taskOutcome : Nat → Except String (Option String)

/-- Embeds createTransport: no URL or no token configured yields no
transport (ok false); a configured but invalid URL throws. -/
def createTransportResult (env : Env) : Except String Bool :=
  if env.mcpUrl = "" then Except.ok false
  else if !env.mcpUrlValid then
    Except.error "TODOIST_MCP_URL must be a valid URL"
  else if env.token = "" then Except.ok false
  else Except.ok true

/-- The serialized intent names. -/
def intentName : IntentType → String
  | IntentType.single_reminder => "single_reminder"
  | IntentType.multi_step_plan => "multi_step_plan"
  | IntentType.recipe_plan => "recipe_plan"
  | IntentType.general_plan => "general_plan"

/-- The empty metadata snapshot. -/
def emptyMetadata : TodoistMetadata := { projects := [], labels := [] }

/-- The tool-listing phase of the handler: with a client, a successful
listing with a tool array emits the debug catalog event; a listing failure
is caught and emits a debug error event; either way the pipeline goes on.
Returns the emitted events and the available tools. -/
def toolsPhase (clientPresent : Bool)
    (listTools : Except String (Option (List Tool))) :
    List Event × Option (List Tool) :=
  if clientPresent then
    match listTools with
    | Except.ok (some tools) => ([Event.debugTools tools], some tools)
    | Except.ok none => ([], none)
    | Except.error m => ([Event.debugError "tools" m], none)
  else ([], none)

/-- Embeds the streaming body of POST, from outcome assignment to emitted
event sequence. -/
def runPlanStream (o : Outcomes) : List Event :=
  match createTransportResult o.env with
  | Except.error msg => [Event.error "Failed to generate the plan" msg]
  | Except.ok clientPresent =>
    match (if clientPresent then o.connect else Except.ok ()) with
    | Except.error msg => [Event.error "Failed to generate the plan" msg]
    | Except.ok _ =>
      let phase := toolsPhase clientPresent o.listTools
      let availableTools := phase.2
      let events0 := phase.1 ++
        [Event.status "ai:init" "Planning tasks with Workers AI",
         Event.status "intent:detect" "Analyzing the request intent"]
      let priorityHint := detectPriorityFromPrompt o.request.prompt
      let scenario := determineScenario o.intentDecision o.request
      let events1 := events0 ++
        [Event.status "intent:classified"
          ("Detected scenario: " ++ intentName scenario.intent)]
      let todoistContext :=
        if clientPresent && (availableTools.getD []).length != 0 then
          o.metadata
        else emptyMetadata
      let events2 := events1 ++
        [Event.debugMetadata todoistContext.projects todoistContext.labels]
      let inferredProject :=
        inferProjectFromPrompt o.request.prompt todoistContext
      let inferredLabels :=
        inferLabelsFromPrompt o.request.prompt todoistContext
      match generatePlan o.planOutcome o.request scenario todoistContext
          priorityHint inferredProject inferredLabels with
      | Except.error msg =>
        events2 ++ [Event.error "Failed to generate the plan" msg]
      | Except.ok plan =>
        let events3 := events2 ++
          [Event.debugInference inferredProject inferredLabels priorityHint,
           Event.aiPlan plan.summary plan.tasks scenario.intent]
        match (if clientPresent then
            syncWithTodoist o.env plan.tasks availableTools o.listedTools2
              o.taskOutcome
          else
            Except.ok
              (plan.tasks.map (fun task =>
                ({ planned := task, status := SyncStatus.failed,
                   todoistId := none,
                   error := some "Todoist MCP client is unavailable" } :
                  TodoistTaskResult)), [])) with
        | Except.error msg =>
          events3 ++ [Event.error "Failed to generate the plan" msg]
        | Except.ok syncOut =>
          events3 ++ syncOut.2 ++
            [Event.final (createdCount syncOut.1) (failedCount syncOut.1)
              syncOut.1]

theorem toolsPhase_nonterminal (b : Bool)
    (lt : Except String (Option (List Tool))) :
    ∀ e ∈ (toolsPhase b lt).1, isTerminalEvent e = false := by
  cases b with
  | false => simp [toolsPhase]
  | true =>
    cases lt with
    | error m => simp [toolsPhase, isTerminalEvent]
    | ok tools => cases tools <;> simp [toolsPhase, isTerminalEvent]

theorem syncLoop_events_nonterminal
    (outcome : Nat → Except String (Option String)) :
    ∀ (tasks : List NormalizedTask) (idx : Nat),
      ∀ e ∈ (syncLoop outcome tasks idx).2, isTerminalEvent e = false := by
  intro tasks
  induction tasks with
  | nil => intro idx e he; simp [syncLoop] at he
  | cons t rest ih =>
    intro idx e he
    cases h : outcome idx with
    | ok cid =>
      simp only [syncLoop, h, List.mem_cons] at he
      rcases he with rfl | rfl | he
      · rfl
      · rfl
      · exact ih (idx + 1) e he
    | error m =>
      simp only [syncLoop, h, List.mem_cons] at he
      rcases he with rfl | rfl | he
      · rfl
      · rfl
      · exact ih (idx + 1) e he

theorem syncWithTodoist_events_nonterminal {env : Env}
    {tasks : List NormalizedTask} {availableTools : Option (List Tool)}
    {listedTools : Except String (List Tool)}
    {outcome : Nat → Except String (Option String)}
    {out : List TodoistTaskResult × List Event}
    (h : syncWithTodoist env tasks availableTools listedTools outcome =
      Except.ok out) :
    ∀ e ∈ out.2, isTerminalEvent e = false := by
  simp only [syncWithTodoist] at h
  split at h
  · cases h
  · cases hr : resolveToolName env.mcpUrl env.token availableTools
        listedTools with
    | error e2 => rw [hr] at h; cases h
    | ok name =>
      rw [hr] at h
      cases h
      exact fun e he => syncLoop_events_nonterminal outcome tasks 0 e he

theorem terminal_split (evs : List Event) (last : Event)
    (h : isTerminalEvent last = true)
    (hp : ∀ e ∈ evs, isTerminalEvent e = false) :
    ∃ (pre : List Event) (l : Event),
      evs ++ [last] = pre ++ [l] ∧ isTerminalEvent l = true ∧
        ∀ e ∈ pre, isTerminalEvent e = false :=
  ⟨evs, last, rfl, h, hp⟩

/-- C3: over every outcome assignment for the external calls, the emitted
event sequence ends in exactly one terminal event (a final or an error),
every earlier event is non-terminal, and nothing follows the terminal
event. -/
theorem spec_C3 (o : Outcomes) :
    ∃ (pre : List Event) (last : Event),
      runPlanStream o = pre ++ [last] ∧ isTerminalEvent last = true ∧
        ∀ e ∈ pre, isTerminalEvent e = false := by
  unfold runPlanStream
  cases h1 : createTransportResult o.env with
  | error msg =>
    exact terminal_split [] (Event.error "Failed to generate the plan" msg)
      rfl (by simp)
  | ok clientPresent =>
    dsimp only
    cases h2 : (if clientPresent then o.connect else Except.ok ()) with
    | error msg =>
      exact terminal_split [] (Event.error "Failed to generate the plan" msg)
        rfl (by simp)
    | ok u =>
      dsimp only
      have hph := toolsPhase_nonterminal clientPresent o.listTools
      generalize hgph : toolsPhase clientPresent o.listTools = phase at hph ⊢
      generalize hctx :
        (if clientPresent && (phase.2.getD []).length != 0 then o.metadata
         else emptyMetadata) = ctx
      cases h3 : generatePlan o.planOutcome o.request
          (determineScenario o.intentDecision o.request) ctx
          (detectPriorityFromPrompt o.request.prompt)
          (inferProjectFromPrompt o.request.prompt ctx)
          (inferLabelsFromPrompt o.request.prompt ctx) with
      | error msg =>
        refine terminal_split _ _ rfl ?_
        intro e he
        simp only [List.mem_append, List.mem_cons, List.not_mem_nil,
          or_false] at he
        rcases he with ((he | rfl | rfl) | rfl) | rfl
        · exact hph e he
        · rfl
        · rfl
        · rfl
        · rfl
      | ok plan =>
        dsimp only
        cases hs : (if clientPresent then
            syncWithTodoist o.env plan.tasks phase.2 o.listedTools2
              o.taskOutcome
          else
            Except.ok
              (plan.tasks.map (fun task =>
                ({ planned := task, status := SyncStatus.failed,
                   todoistId := none,
                   error := some "Todoist MCP client is unavailable" } :
                  TodoistTaskResult)), [])) with
        | error msg =>
          refine terminal_split _ _ rfl ?_
          intro e he
          simp only [List.mem_append, List.mem_cons, List.not_mem_nil,
            or_false] at he
          rcases he with (((he | rfl | rfl) | rfl) | rfl) | rfl | rfl
          · exact hph e he
          · rfl
          · rfl
          · rfl
          · rfl
          · rfl
          · rfl
        | ok syncOut =>
          dsimp only
          have hsync : ∀ e ∈ syncOut.2, isTerminalEvent e = false := by
            cases clientPresent with
            | false =>
              rw [if_neg (by simp)] at hs
              cases hs
              simp
            | true =>
              rw [if_pos rfl] at hs
              exact syncWithTodoist_events_nonterminal hs
          refine terminal_split _ _ rfl ?_
          intro e he
          simp only [List.mem_append, List.mem_cons, List.not_mem_nil,
            or_false] at he
          rcases he with ((((he | rfl | rfl) | rfl) | rfl) | rfl | rfl) | he
          · exact hph e he
          · rfl
          · rfl
          · rfl
          · rfl
          · rfl
          · rfl
          · exact hsync e he

theorem createdCount_allFailed (msg : String) :
    ∀ tasks : List NormalizedTask,
      createdCount (tasks.map (fun task =>
        ({ planned := task, status := SyncStatus.failed, todoistId := none,
           error := some msg } : TodoistTaskResult))) = 0 := by
  intro tasks
  induction tasks with
  | nil => rfl
  | cons t rest ih => simpa [createdCount, List.filter] using ih

theorem failedCount_allFailed (msg : String) :
    ∀ tasks : List NormalizedTask,
      failedCount (tasks.map (fun task =>
        ({ planned := task, status := SyncStatus.failed, todoistId := none,
           error := some msg } : TodoistTaskResult))) = tasks.length := by
  intro tasks
  induction tasks with
  | nil => rfl
  | cons t rest ih => simpa [failedCount, List.filter] using ih

/-- C10: when the MCP connection is skipped because TODOIST_MCP_URL or
TODOIST_TOKEN is unconfigured, a successful generation still streams the
plan and a final event whose results mark every planned task failed with
the message Todoist MCP client is unavailable, counting zero created and
all tasks failed; no error event is emitted. -/
theorem spec_C10 (o : Outcomes) (plan : GeneratedPlan)
    (h0 : createTransportResult o.env = Except.ok false)
    (hplan : generatePlan o.planOutcome o.request
        (determineScenario o.intentDecision o.request) emptyMetadata
        (detectPriorityFromPrompt o.request.prompt) none none =
      Except.ok plan) :
    runPlanStream o =
      [Event.status "ai:init" "Planning tasks with Workers AI",
       Event.status "intent:detect" "Analyzing the request intent",
       Event.status "intent:classified"
         ("Detected scenario: " ++
           intentName (determineScenario o.intentDecision o.request).intent),
       Event.debugMetadata [] [],
       Event.debugInference none none
         (detectPriorityFromPrompt o.request.prompt),
       Event.aiPlan plan.summary plan.tasks
         (determineScenario o.intentDecision o.request).intent,
       Event.final 0 plan.tasks.length
         (plan.tasks.map (fun task =>
           ({ planned := task, status := SyncStatus.failed, todoistId := none,
              error := some "Todoist MCP client is unavailable" } :
             TodoistTaskResult)))] ∧
    createdCount (plan.tasks.map (fun task =>
      ({ planned := task, status := SyncStatus.failed, todoistId := none,
         error := some "Todoist MCP client is unavailable" } :
        TodoistTaskResult))) = 0 ∧
    failedCount (plan.tasks.map (fun task =>
      ({ planned := task, status := SyncStatus.failed, todoistId := none,
         error := some "Todoist MCP client is unavailable" } :
        TodoistTaskResult))) = plan.tasks.length ∧
    (∀ e ∈ runPlanStream o, isErrorEvent e = false) := by
  have hinfP : inferProjectFromPrompt o.request.prompt emptyMetadata = none := by
    simp [inferProjectFromPrompt, emptyMetadata]
  have hinfL : inferLabelsFromPrompt o.request.prompt emptyMetadata = none := by
    simp [inferLabelsFromPrompt, emptyMetadata]
  have hcc := createdCount_allFailed "Todoist MCP client is unavailable"
    plan.tasks
  have hfc := failedCount_allFailed "Todoist MCP client is unavailable"
    plan.tasks
  have heq : runPlanStream o =
      [Event.status "ai:init" "Planning tasks with Workers AI",
       Event.status "intent:detect" "Analyzing the request intent",
       Event.status "intent:classified"
         ("Detected scenario: " ++
           intentName (determineScenario o.intentDecision o.request).intent),
       Event.debugMetadata [] [],
       Event.debugInference none none
         (detectPriorityFromPrompt o.request.prompt),
       Event.aiPlan plan.summary plan.tasks
         (determineScenario o.intentDecision o.request).intent,
       Event.final 0 plan.tasks.length
         (plan.tasks.map (fun task =>
           ({ planned := task, status := SyncStatus.failed, todoistId := none,
              error := some "Todoist MCP client is unavailable" } :
             TodoistTaskResult)))] := by
    unfold runPlanStream
    rw [h0]
    simp only [Bool.false_eq_true, if_false, Bool.false_and, toolsPhase]
    rw [hinfP, hinfL, hplan]
    dsimp only
    rw [hcc, hfc]
    simp [emptyMetadata]
  refine ⟨heq, hcc, hfc, ?_⟩
  intro e he
  rw [heq] at he
  simp only [List.mem_cons, List.not_mem_nil, or_false] at he
  rcases he with rfl | rfl | rfl | rfl | rfl | rfl | rfl <;> rfl

/-- C10 witness: with no MCP URL configured and a one-task generation, the
final counters read zero created and one failed. -/
theorem spec_C10_witness :
    (createTransportResult { mcpUrl := "", mcpUrlValid := false, token := "" }
      = Except.ok false) ∧
    createdCount (([{ title := "Buy milk" }] : List NormalizedTask).map
      (fun task =>
        ({ planned := task, status := SyncStatus.failed, todoistId := none,
           error := some "Todoist MCP client is unavailable" } :
          TodoistTaskResult))) = 0 ∧
    failedCount (([{ title := "Buy milk" }] : List NormalizedTask).map
      (fun task =>
        ({ planned := task, status := SyncStatus.failed, todoistId := none,
           error := some "Todoist MCP client is unavailable" } :
          TodoistTaskResult))) = 1 := by
  have h0 : createTransportResult
      { mcpUrl := "", mcpUrlValid := false, token := "" } =
      Except.ok false := rfl
  have hplan : generatePlan
      (Except.ok { tasks := [{ title := "Buy milk" }] })
      ({ prompt := "hi" } : PlanRequestBody)
      (determineScenario { intent := IntentType.general_plan }
        ({ prompt := "hi" } : PlanRequestBody))
      emptyMetadata (detectPriorityFromPrompt "hi") none none =
      Except.ok { summary := none, tasks := [{ title := "Buy milk" }] } := by
    rfl
  have happ := spec_C10
    { env := { mcpUrl := "", mcpUrlValid := false, token := "" }
      connect := Except.ok ()
      listTools := Except.ok none
      intentDecision := { intent := IntentType.general_plan }
      request := { prompt := "hi" }
      metadata := emptyMetadata
      planOutcome := Except.ok { tasks := [{ title := "Buy milk" }] }
      listedTools2 := Except.ok []
      taskOutcome := fun _ => Except.error "unused" }
    { summary := none, tasks := [{ title := "Buy milk" }] } h0 hplan
  exact ⟨h0, happ.2.1, happ.2.2.1⟩

/-!
## Helper lemmas about trimming and lowercasing
-/

theorem dropWhile_head?_not {α : Type} (p : α → Bool) (l : List α) :
    ∀ c ∈ (l.dropWhile p).head?, p c = false := by
  induction l with
  | nil => simp
  | cons x xs ih =>
    by_cases hp : p x
    · simpa [List.dropWhile_cons, hp] using ih
    · simp [List.dropWhile_cons, hp]

theorem dropWhile_getLast?_of_ne_nil {α : Type} (p : α → Bool) (l : List α)
    (h : l.dropWhile p ≠ []) : (l.dropWhile p).getLast? = l.getLast? := by
  induction l with
  | nil => simp at h
  | cons x xs ih =>
    by_cases hp : p x
    · rw [List.dropWhile_cons, if_pos hp] at h ⊢
      have hxs : xs ≠ [] := by
        intro he
        rw [he] at h
        simp at h
      rw [ih h]
      cases xs with
      | nil => exact absurd rfl hxs
      | cons y ys => rw [List.getLast?_cons_cons]
    · rw [List.dropWhile_cons, if_neg hp]

theorem dropWhile_eq_self_of_head? {α : Type} (p : α → Bool) (l : List α)
    (h : ∀ c ∈ l.head?, p c = false) : l.dropWhile p = l := by
  cases l with
  | nil => rfl
  | cons x xs =>
    have := h x (by simp)
    simp [List.dropWhile_cons, this]

theorem trimList_head? (cs : List Char) :
    ∀ c ∈ (trimList cs).head?, isJsWs c = false := by
  intro c hc
  unfold trimList at hc
  rw [List.head?_reverse] at hc
  by_cases hB : ((cs.dropWhile isJsWs).reverse.dropWhile isJsWs) = []
  · rw [hB] at hc
    simp at hc
  · rw [dropWhile_getLast?_of_ne_nil _ _ hB, List.getLast?_reverse] at hc
    exact dropWhile_head?_not isJsWs cs c hc

theorem trimList_getLast? (cs : List Char) :
    ∀ c ∈ (trimList cs).getLast?, isJsWs c = false := by
  intro c hc
  unfold trimList at hc
  rw [List.getLast?_reverse] at hc
  exact dropWhile_head?_not isJsWs _ c hc

theorem trimList_eq_self (cs : List Char)
    (h1 : ∀ c ∈ cs.head?, isJsWs c = false)
    (h2 : ∀ c ∈ cs.getLast?, isJsWs c = false) : trimList cs = cs := by
  unfold trimList
  rw [dropWhile_eq_self_of_head? _ _ h1]
  rw [dropWhile_eq_self_of_head? _ _ (by rw [List.head?_reverse]; exact h2)]
  exact List.reverse_reverse cs

theorem trimList_idem (cs : List Char) :
    trimList (trimList cs) = trimList cs :=
  trimList_eq_self _ (trimList_head? cs) (trimList_getLast? cs)

theorem jsTrim_idem (s : String) : jsTrim (jsTrim s) = jsTrim s := by
  unfold jsTrim
  rw [show (String.mk (trimList s.data)).data = trimList s.data from rfl,
    trimList_idem]

theorem strLower_empty_iff (s : String) : strLower s = "" ↔ s = "" := by
  constructor
  · intro h
    have hd := congrArg String.data h
    have hnil : s.data.map jsLowerChar = [] := hd
    have : s.data = [] := by simpa using hnil
    exact String.ext this
  · intro h
    rw [h]
    rfl

theorem ws_ends_of_lower_eq {a b : String} (h : strLower a = strLower b)
    (h1 : ∀ c ∈ b.data.head?, isJsWs c = false)
    (h2 : ∀ c ∈ b.data.getLast?, isJsWs c = false) :
    (∀ c ∈ a.data.head?, isJsWs c = false) ∧
      (∀ c ∈ a.data.getLast?, isJsWs c = false) := by
  have hd : a.data.map jsLowerChar = b.data.map jsLowerChar :=
    congrArg String.data h
  constructor
  · intro c hc
    rw [Option.mem_def] at hc
    have hmap : (b.data.head?).map jsLowerChar = some (jsLowerChar c) := by
      rw [← List.head?_map, ← hd, List.head?_map, hc]
      rfl
    cases hbd : b.data.head? with
    | none => rw [hbd] at hmap; cases hmap
    | some d =>
      rw [hbd] at hmap
      have hfd : jsLowerChar d = jsLowerChar c := by
        simpa using hmap
      have hwd := h1 d (by rw [Option.mem_def, hbd])
      rw [← isJsWs_jsLowerChar c, ← hfd, isJsWs_jsLowerChar d]
      exact hwd
  · intro c hc
    rw [Option.mem_def] at hc
    have hmap : (b.data.getLast?).map jsLowerChar = some (jsLowerChar c) := by
      rw [← List.getLast?_map, ← hd, List.getLast?_map, hc]
      rfl
    cases hbd : b.data.getLast? with
    | none => rw [hbd] at hmap; cases hmap
    | some d =>
      rw [hbd] at hmap
      have hfd : jsLowerChar d = jsLowerChar c := by
        simpa using hmap
      have hwd := h2 d (by rw [Option.mem_def, hbd])
      rw [← isJsWs_jsLowerChar c, ← hfd, isJsWs_jsLowerChar d]
      exact hwd

theorem jsTrim_eq_self_of_lower_eq_trimmed {a t : String}
    (h : strLower a = strLower (jsTrim t)) : jsTrim a = a := by
  have h1 : ∀ c ∈ (jsTrim t).data.head?, isJsWs c = false :=
    trimList_head? t.data
  have h2 : ∀ c ∈ (jsTrim t).data.getLast?, isJsWs c = false :=
    trimList_getLast? t.data
  obtain ⟨g1, g2⟩ := ws_ends_of_lower_eq h h1 h2
  show String.mk (trimList a.data) = a
  rw [trimList_eq_self a.data g1 g2]

theorem lower_ne_empty_of_lower_eq_trimmed {a t : String}
    (h : strLower a = strLower (jsTrim t)) (ht : jsTrim t ≠ "") : a ≠ "" := by
  intro he
  rw [he] at h
  have : jsTrim t = "" := (strLower_empty_iff _).mp h.symm
  exact ht this

theorem canonicalizeLabel_stable (ctx : TodoistMetadata) (label y : String)
    (hy : canonicalizeLabel ctx label = some y) :
    jsTrim y = y ∧ y ≠ "" ∧ canonicalizeLabel ctx y = some y := by
  unfold canonicalizeLabel at hy
  by_cases ht : jsTrim label = ""
  · rw [if_pos ht] at hy
    cases hy
  · rw [if_neg ht] at hy
    cases hfind : ctx.labels.find?
        (fun entry => strLower entry.name = strLower (jsTrim label)) with
    | some canonical =>
      rw [hfind] at hy
      cases hy
      have hpe : strLower canonical.name = strLower (jsTrim label) := by
        simpa using List.find?_some hfind
      have htrim : jsTrim canonical.name = canonical.name :=
        jsTrim_eq_self_of_lower_eq_trimmed hpe
      have hne : canonical.name ≠ "" :=
        lower_ne_empty_of_lower_eq_trimmed hpe ht
      refine ⟨htrim, hne, ?_⟩
      unfold canonicalizeLabel
      rw [if_neg (by rw [htrim]; exact hne)]
      simp only [htrim]
      have hcong :
          (fun entry : TodoistLabelSummary =>
            decide (strLower entry.name = strLower canonical.name)) =
          (fun entry : TodoistLabelSummary =>
            decide (strLower entry.name = strLower (jsTrim label))) := by
        funext entry
        rw [hpe]
      rw [hcong, hfind]
    | none =>
      rw [hfind] at hy
      cases hy
      refine ⟨jsTrim_idem label, ht, ?_⟩
      unfold canonicalizeLabel
      rw [if_neg (by rw [jsTrim_idem]; exact ht)]
      simp only [jsTrim_idem]
      rw [hfind]

theorem canonList_mem (ctx : TodoistMetadata) (ls : List String) :
    ∀ y ∈ canonList ctx ls,
      jsTrim y = y ∧ y ≠ "" ∧ canonicalizeLabel ctx y = some y := by
  intro y hy
  unfold canonList at hy
  rw [List.mem_filterMap] at hy
  obtain ⟨x, hx, hxy⟩ := hy
  rw [List.mem_map] at hx
  obtain ⟨lab, _hlab, hcl⟩ := hx
  by_cases htr : truthy x
  · rw [if_pos htr] at hxy
    exact canonicalizeLabel_stable ctx lab y (hxy ▸ hcl)
  · rw [if_neg htr] at hxy
    cases hxy

theorem canonList_fixed (ctx : TodoistMetadata) :
    ∀ out : List String,
      (∀ y ∈ out, y ≠ "" ∧ canonicalizeLabel ctx y = some y) →
        canonList ctx out = out := by
  intro out
  induction out with
  | nil => intro h; rfl
  | cons y rest ih =>
    intro h
    have hy := h y (by simp)
    have htr : truthy (some y) = true := by
      simpa [truthy] using hy.1
    unfold canonList
    simp only [List.map_cons, List.filterMap_cons, hy.2, htr, if_true]
    have := ih (fun z hz => h z (by simp [hz]))
    unfold canonList at this
    rw [this]

theorem dedupeLoop_mem :
    ∀ (ls seen acc : List String), ∀ x ∈ dedupeLoop seen acc ls,
      x ∈ acc ∨ ∃ y ∈ ls, x = jsTrim y := by
  intro ls
  induction ls with
  | nil =>
    intro seen acc x hx
    exact Or.inl hx
  | cons l rest ih =>
    intro seen acc x hx
    simp only [dedupeLoop] at hx
    split at hx
    · rcases ih seen acc x hx with h | ⟨y, hy, he⟩
      · exact Or.inl h
      · exact Or.inr ⟨y, by simp [hy], he⟩
    · split at hx
      · rcases List.mem_append.mp hx with h | h
        · exact Or.inl h
        · exact Or.inr ⟨l, by simp, by simpa using h⟩
      · rcases ih _ _ x hx with h | ⟨y, hy, he⟩
        · rcases List.mem_append.mp h with h2 | h2
          · exact Or.inl h2
          · exact Or.inr ⟨l, by simp, by simpa using h2⟩
        · exact Or.inr ⟨y, by simp [hy], he⟩

theorem dedupeLoop_length :
    ∀ (ls seen acc : List String), acc.length ≤ 4 →
      (dedupeLoop seen acc ls).length ≤ 5 := by
  intro ls
  induction ls with
  | nil =>
    intro seen acc h
    simpa [dedupeLoop] using by omega
  | cons l rest ih =>
    intro seen acc h
    simp only [dedupeLoop]
    split
    · exact ih seen acc h
    · split
      · rename_i hlen
        omega
      · rename_i hlen
        refine ih _ _ ?_
        simp at hlen ⊢
        omega

theorem dedupeLoop_pairwise :
    ∀ (ls seen acc : List String),
      (∀ a ∈ acc, strLower a ∈ seen) →
      acc.Pairwise (fun a b => strLower a ≠ strLower b) →
      (dedupeLoop seen acc ls).Pairwise
        (fun a b => strLower a ≠ strLower b) := by
  intro ls
  induction ls with
  | nil =>
    intro seen acc _ hp
    exact hp
  | cons l rest ih =>
    intro seen acc hseen hp
    simp only [dedupeLoop]
    split
    · exact ih seen acc hseen hp
    · rename_i hguard
      have hnotin : strLower (jsTrim l) ∉ seen := by
        intro hin
        apply hguard
        simp [hin]
      have hap : (acc ++ [jsTrim l]).Pairwise
          (fun a b => strLower a ≠ strLower b) := by
        rw [List.pairwise_append]
        refine ⟨hp, by simp, ?_⟩
        intro a ha b hb
        have := hseen a ha
        simp at hb
        rw [hb]
        intro he
        exact hnotin (he ▸ this)
      split
      · exact hap
      · refine ih _ _ ?_ hap
        intro a ha
        rcases List.mem_append.mp ha with h | h
        · exact List.mem_cons_of_mem _ (hseen a h)
        · simp at h
          rw [h]
          exact List.mem_cons_self _ _

theorem dedupeLoop_find? :
    ∀ ls : List String, (∀ y ∈ ls, jsTrim y = y) →
      ∀ (seen acc : List String), ∀ x ∈ dedupeLoop seen acc ls,
        x ∈ acc ∨ (x ≠ "" ∧
          List.find? (fun y => strLower y = strLower x) ls = some x ∧
          strLower x ∉ seen) := by
  intro ls
  induction ls with
  | nil => intro _ seen acc x hx; exact Or.inl hx
  | cons l rest ih =>
    intro htr seen acc x hx
    have htl : jsTrim l = l := htr l (by simp)
    have htrest : ∀ y ∈ rest, jsTrim y = y := fun y hy => htr y (by simp [hy])
    simp only [dedupeLoop, htl] at hx
    split at hx
    · rename_i hguard
      have hguard2 : l = "" ∨ strLower l ∈ seen := by simpa using hguard
      rcases ih htrest seen acc x hx with h | ⟨hne, hfind, hnin⟩
      · exact Or.inl h
      · refine Or.inr ⟨hne, ?_, hnin⟩
        have hpl : strLower l ≠ strLower x := by
          rcases hguard2 with hl0 | hlin
          · rw [hl0]
            intro he
            exact hne ((strLower_empty_iff x).mp he.symm)
          · exact fun he => hnin (he ▸ hlin)
        rw [List.find?_cons]
        simp only [hpl, decide_eq_true_eq, decide_eq_false_iff_not,
          not_false_eq_true]
        simpa [hpl] using hfind
    · rename_i hguard
      have hlne : l ≠ "" ∧ strLower l ∉ seen := by
        constructor
        · intro h
          exact hguard (by simp [h])
        · intro h
          exact hguard (by simp [h])
      split at hx
      · rcases List.mem_append.mp hx with h | h
        · exact Or.inl h
        · simp at h
          subst h
          refine Or.inr ⟨hlne.1, ?_, hlne.2⟩
          rw [List.find?_cons]
          simp
      · rcases ih htrest _ _ x hx with h | ⟨hne, hfind, hnin⟩
        · rcases List.mem_append.mp h with h2 | h2
          · exact Or.inl h2
          · simp at h2
            subst h2
            refine Or.inr ⟨hlne.1, ?_, hlne.2⟩
            rw [List.find?_cons]
            simp
        · have hxn : strLower x ∉ seen := fun hc => hnin (by simp [hc])
          have hxl : strLower l ≠ strLower x := fun he => hnin (by simp [he])
          refine Or.inr ⟨hne, ?_, hxn⟩
          rw [List.find?_cons]
          simpa [hxl] using hfind

theorem dedupeLoop_sublist :
    ∀ ls : List String, (∀ y ∈ ls, jsTrim y = y) →
      ∀ seen acc : List String, ∃ s,
        dedupeLoop seen acc ls = acc ++ s ∧ s.Sublist ls := by
  intro ls
  induction ls with
  | nil =>
    intro _ seen acc
    exact ⟨[], by simp [dedupeLoop], List.nil_sublist []⟩
  | cons l rest ih =>
    intro htr seen acc
    have htl : jsTrim l = l := htr l (by simp)
    have htrest : ∀ y ∈ rest, jsTrim y = y := fun y hy => htr y (by simp [hy])
    simp only [dedupeLoop, htl]
    split
    · obtain ⟨s, hs, hsub⟩ := ih htrest seen acc
      exact ⟨s, hs, hsub.cons l⟩
    · split
      · exact ⟨[l], by simp, (List.nil_sublist rest).cons₂ l⟩
      · obtain ⟨s, hs, hsub⟩ := ih htrest (strLower l :: seen) (acc ++ [l])
        exact ⟨l :: s, by simp [hs], hsub.cons₂ l⟩

theorem dedupeLoop_fixed :
    ∀ ls : List String,
      (∀ y ∈ ls, jsTrim y = y ∧ y ≠ "") →
      ls.Pairwise (fun a b => strLower a ≠ strLower b) →
      ∀ seen acc : List String, (∀ y ∈ ls, strLower y ∉ seen) →
        acc.length + ls.length ≤ 5 →
        dedupeLoop seen acc ls = acc ++ ls := by
  intro ls
  induction ls with
  | nil => intro _ _ seen acc _ _; simp [dedupeLoop]
  | cons l rest ih =>
    intro hels hpw seen acc hseen hlen
    have hl := hels l (by simp)
    have hpwc := List.pairwise_cons.mp hpw
    simp only [dedupeLoop, hl.1]
    have hguard : ¬((l = "" || seen.contains (strLower l)) = true) := by
      simp only [Bool.or_eq_true, decide_eq_true_eq]
      rintro (h | h)
      · exact hl.2 h
      · exact hseen l (by simp) (by simpa using h)
    rw [if_neg hguard]
    by_cases h5 : (acc ++ [l]).length = 5
    · rw [if_pos h5]
      have hrest : rest = [] := by
        simp at h5 hlen
        cases rest with
        | nil => rfl
        | cons r rs => simp at hlen; omega
      subst hrest
      simp
    · rw [if_neg h5]
      have hstep := ih (fun y hy => hels y (by simp [hy])) hpwc.2
        (strLower l :: seen) (acc ++ [l])
        (fun y hy => by
          simp only [List.mem_cons]
          rintro (h | h)
          · exact hpwc.1 y hy h.symm
          · exact hseen y (by simp [hy]) h)
        (by simp at hlen ⊢; omega)
      rw [hstep]
      simp

theorem dedupeLabels_some {ls out : List String}
    (h : dedupeLabels (some ls) = some out) :
    out = dedupeLoop [] [] ls ∧ out ≠ [] := by
  simp only [dedupeLabels] at h
  split at h
  · cases h
  · split at h
    · cases h
    · rename_i h2
      cases h
      refine ⟨rfl, ?_⟩
      intro he
      rw [he] at h2
      exact h2 rfl

theorem normalizeLabels_some {preferred fallback inferred : Option (List String)}
    {ctx : TodoistMetadata} {out : List String}
    (h : normalizeLabels preferred fallback ctx inferred = some out) :
    ∃ ls, labelSource preferred fallback inferred = some ls ∧
      out = dedupeLoop [] [] (canonList ctx ls) ∧ out ≠ [] := by
  simp only [normalizeLabels] at h
  cases hsrc : labelSource preferred fallback inferred with
  | none => rw [hsrc] at h; cases h
  | some ls =>
    rw [hsrc] at h
    dsimp only at h
    split at h
    · cases h
    · obtain ⟨ho, hne⟩ := dedupeLabels_some h
      exact ⟨ls, rfl, ho, hne⟩

theorem normalizeLabels_props {preferred fallback inferred : Option (List String)}
    {ctx : TodoistMetadata} {out : List String}
    (h : normalizeLabels preferred fallback ctx inferred = some out) :
    out.length ≤ 5 ∧ out ≠ [] ∧
      out.Pairwise (fun a b => strLower a ≠ strLower b) ∧
      (∀ x ∈ out, jsTrim x = x ∧ x ≠ "" ∧
        canonicalizeLabel ctx x = some x) := by
  obtain ⟨ls, hsrc, ho, hne⟩ := normalizeLabels_some h
  subst ho
  refine ⟨dedupeLoop_length _ [] [] (by simp), hne,
    dedupeLoop_pairwise _ [] [] (by simp) (by simp), ?_⟩
  intro x hx
  rcases dedupeLoop_mem (canonList ctx ls) [] [] x hx with h0 | ⟨y, hy, he⟩
  · simp at h0
  · have hy2 := canonList_mem ctx ls y hy
    have hxy : x = y := he.trans hy2.1
    subst hxy
    exact hy2

theorem normalizeLabels_idem
    {preferred fallback inferred : Option (List String)}
    {ctx : TodoistMetadata} {out : List String}
    (h : normalizeLabels preferred fallback ctx inferred = some out) :
    ∀ fallback2 inferred2 : Option (List String),
      normalizeLabels (some out) fallback2 ctx inferred2 = some out := by
  intro f2 i2
  obtain ⟨hlen, hne, hpw, hmem⟩ := normalizeLabels_props h
  have hlz : ¬(out.length = 0) := by
    simpa [List.length_eq_zero] using hne
  have hsrc : labelSource (some out) f2 i2 = some out := by
    simp [labelSource, Option.getD, hlz]
  have hcanon : canonList ctx out = out :=
    canonList_fixed ctx out
      (fun y hy => ⟨(hmem y hy).2.1, (hmem y hy).2.2⟩)
  have hfix : dedupeLoop [] [] out = out := by
    simpa using dedupeLoop_fixed out
      (fun y hy => ⟨(hmem y hy).1, (hmem y hy).2.1⟩) hpw [] []
      (by simp) (by simpa using hlen)
  simp only [normalizeLabels, hsrc]
  rw [if_neg hlz, hcanon]
  simp only [dedupeLabels]
  rw [if_neg hlz]
  rw [hfix, if_neg hlz]

/-- C9: label normalization is idempotent and order-stable: re-normalizing
an already-normalized list against the same catalog returns it unchanged;
a returned list is never empty (empty means undefined), holds at most five
labels, contains no two labels equal up to case, is a subsequence of the
canonicalized source list, and each of its entries is the first entry of
that list with its lowercase key, so duplicates collapse to the first-seen
casing. -/
theorem spec_C9 :
    (∀ (preferred fallback inferred : Option (List String))
        (ctx : TodoistMetadata) (out : List String)
        (fallback2 inferred2 : Option (List String)),
      normalizeLabels preferred fallback ctx inferred = some out →
        normalizeLabels (some out) fallback2 ctx inferred2 = some out) ∧
    (∀ (preferred fallback inferred : Option (List String))
        (ctx : TodoistMetadata) (out : List String),
      normalizeLabels preferred fallback ctx inferred = some out →
        out.length ≤ 5 ∧ out ≠ [] ∧
          out.Pairwise (fun a b => strLower a ≠ strLower b)) ∧
    (∀ (preferred fallback inferred : Option (List String))
        (ctx : TodoistMetadata) (out ls : List String),
      labelSource preferred fallback inferred = some ls →
      normalizeLabels preferred fallback ctx inferred = some out →
        out.Sublist (canonList ctx ls) ∧
          ∀ x ∈ out,
            (canonList ctx ls).find? (fun y => strLower y = strLower x) =
              some x) := by
  refine ⟨?_, ?_, ?_⟩
  · intro preferred fallback inferred ctx out f2 i2 h
    exact normalizeLabels_idem h f2 i2
  · intro preferred fallback inferred ctx out h
    obtain ⟨h1, h2, h3, _⟩ := normalizeLabels_props h
    exact ⟨h1, h2, h3⟩
  · intro preferred fallback inferred ctx out ls hsrc h
    obtain ⟨ls2, hsrc2, ho, hne⟩ := normalizeLabels_some h
    rw [hsrc] at hsrc2
    cases hsrc2
    have htr : ∀ y ∈ canonList ctx ls, jsTrim y = y :=
      fun y hy => (canonList_mem ctx ls y hy).1
    subst ho
    constructor
    · obtain ⟨s, hs, hsub⟩ := dedupeLoop_sublist (canonList ctx ls) htr [] []
      rw [hs]
      simpa using hsub
    · intro x hx
      rcases dedupeLoop_find? (canonList ctx ls) htr [] [] x hx with
        h0 | ⟨_, hfind, _⟩
      · simp at h0
      · exact hfind

/-- C9 witness: normalizing task labels Work, WORK, home against a catalog
holding the label Work collapses the case-duplicate to the catalog casing,
and normalizing the result again returns it unchanged. -/
theorem spec_C9_witness :
    (normalizeLabels (some ["Work", "WORK", "home"]) none
        { projects := [], labels := [{ id := "1", name := "Work" }] } none =
      some ["Work", "home"]) ∧
    normalizeLabels (some ["Work", "home"]) none
        { projects := [], labels := [{ id := "1", name := "Work" }] } none =
      some ["Work", "home"] := by
  have h : normalizeLabels (some ["Work", "WORK", "home"]) none
      { projects := [], labels := [{ id := "1", name := "Work" }] } none =
      some ["Work", "home"] := by rfl
  exact ⟨h, spec_C9.1 _ _ _ _ _ none none h⟩
